import Mathlib

/-!
# Verification of the AxisCameraUpload request-handling pipeline

A shallow embedding of `src/AxisCameraUpload.cpp` (class
`ImageUploadRequestHandler`) together with the parts of the POCO C++
library the handler calls into: `Poco::NumberFormatter`,
`Poco::DateTimeFormatter`, `Poco::URI` (parsing of request targets and
percent-decoding), `Poco::Path` (Unix parsing, `pushDirectory`,
`makeDirectory`, `depth`, `directory`, `toString`) and
`Poco::Net::HTMLForm` (`read` of a query string) with the
case-insensitive lookup of `Poco::Net::NameValueCollection`.

C++ `std::string` values are modelled as `List Char`.  Code that can
throw a `Poco::Exception` is modelled in `Except String`, the `String`
holding the exception message.  Filesystem and network side effects of
`handleRequest` are modelled as an explicit event trace; the outcome of
the filesystem operations inside `storeImage` is an oracle parameter.
Logging, the home-directory expansion of `Poco::Path` (paths starting
with a tilde) and the scheme/authority branch of `Poco::URI::parse`
(request targets not in origin form) are outside the model; theorems
about URI handling therefore restrict to request targets that begin
with a slash, which is the domain HTTP origin-form requests live in.
-/

namespace AxisUpload

/-- C++ `std::string`, modelled as a list of characters. -/
abbrev Str := List Char

/-! ## Poco::NumberFormatter -/

/-- The decimal digit character for `n < 10` (clamped at `'9'`). -/
def digitChar (n : Nat) : Char :=
  if n = 0 then '0' else if n = 1 then '1' else if n = 2 then '2' else if n = 3 then '3'
  else if n = 4 then '4' else if n = 5 then '5' else if n = 6 then '6' else if n = 7 then '7'
  else if n = 8 then '8' else '9'

/-- Decimal digits, most significant first; the `fuel` argument only
bounds the recursion depth (any `fuel > n` yields the digits of `n`). -/
def natDigitsAux : Nat → Nat → Str
  | 0, _ => []
  | fuel + 1, n =>
    if n < 10 then [digitChar n]
    else natDigitsAux fuel (n / 10) ++ [digitChar (n % 10)]

/-- Decimal digits of a natural number, most significant first. -/
def natDigits (n : Nat) : Str := natDigitsAux (n + 1) n

/-- `Poco::NumberFormatter::format(int)`: plain decimal formatting. -/
def format (n : Nat) : Str := natDigits n

/-- `Poco::NumberFormatter::format0(int, int)`: decimal formatting
zero-padded on the left to at least `width` characters. -/
def format0 (n width : Nat) : Str :=
  List.replicate (width - (natDigits n).length) '0' ++ natDigits n

/-! ## Poco::LocalDateTime and Poco::DateTimeFormatter -/

/-- A `Poco::LocalDateTime` value: the server's local wall-clock time
sampled by `storeImage`. -/
structure LocalDateTime where
  year : Nat
  month : Nat
  day : Nat
  hour : Nat
  minute : Nat
  second : Nat
  millisecond : Nat
  microsecond : Nat
deriving DecidableEq

/-- One `%`-specifier of `Poco::DateTimeFormatter` (the subset used by
the program's format string; an unknown specifier appends itself). -/
def dtfSpec (now : LocalDateTime) (c : Char) : Str :=
  if c = 'Y' then format0 now.year 4
  else if c = 'm' then format0 now.month 2
  else if c = 'd' then format0 now.day 2
  else if c = 'H' then format0 now.hour 2
  else if c = 'M' then format0 now.minute 2
  else if c = 'S' then format0 now.second 2
  else if c = 'F' then format0 (now.millisecond * 1000 + now.microsecond) 6
  else [c]

/-- `Poco::DateTimeFormatter::format` over a pattern string. -/
def dtfFormat (now : LocalDateTime) : Str → Str
  | [] => []
  | '%' :: c :: rest => dtfSpec now c ++ dtfFormat now rest
  | c :: rest => c :: dtfFormat now rest

/-! ## Poco::URI -/

/-- Hexadecimal value of a character, if it is a hex digit. -/
def hexVal (c : Char) : Option Nat :=
  if '0' ≤ c ∧ c ≤ '9' then some (c.toNat - 48)
  else if 'A' ≤ c ∧ c ≤ 'F' then some (c.toNat - 65 + 10)
  else if 'a' ≤ c ∧ c ≤ 'f' then some (c.toNat - 97 + 10)
  else none

/-- `Poco::URI::decode` (with `plusAsSpace` false, as in the call sites
the program reaches): percent-decoding that throws a
`URISyntaxException` on a malformed escape. -/
def uriDecode : Str → Except String Str
  | [] => .ok []
  | c :: rest =>
    if c = '%' then
      match rest with
      | [] => .error "URI encoding: no hex digit following percent sign"
      | [_] => .error "URI encoding: two hex digits must follow percent sign"
      | hi :: lo :: rest2 =>
        match hexVal hi, hexVal lo with
        | some h, some l => (uriDecode rest2).map (fun d => Char.ofNat (16 * h + l) :: d)
        | _, _ => .error "URI encoding: not a hex digit"
    else (uriDecode rest).map (fun d => c :: d)

/-- The observable pieces of a parsed `Poco::URI`: the decoded path,
the raw query and the decoded fragment. -/
structure PocoURI where
  path : Str
  query : Str
  fragment : Str
deriving DecidableEq

/-- `Poco::URI::parseFragment` applied to what follows the query (the
part of `parsePathEtc` after the query): a leading `#` starts a
fragment, which is percent-decoded (and can therefore throw). -/
def uriFragPart (path q rest2 : Str) : Except String PocoURI :=
  match rest2 with
  | '#' :: f => do
    let frag ← uriDecode f
    return ⟨path, q, frag⟩
  | _ => return ⟨path, q, []⟩

/-- `Poco::URI::parseQuery`/`parseFragment` applied to what follows the
path in `parsePathEtc`: a leading `?` starts the raw query, which runs
to the first `#`. -/
def uriQueryPart (path rest1 : Str) : Except String PocoURI :=
  match rest1 with
  | '?' :: r => uriFragPart path (r.takeWhile fun c => !(c == '#')) (r.dropWhile fun c => !(c == '#'))
  | '#' :: f => do
    let frag ← uriDecode f
    return ⟨path, [], frag⟩
  | _ => return ⟨path, [], []⟩

/-- `Poco::URI::parse` on a request target in origin form (beginning
with `/`, `.`, `?` or `#`), which dispatches to `parsePathEtc`: the
path runs to the first `?` or `#` and is percent-decoded, the query
(raw) runs from `?` to `#`, the fragment follows `#` and is decoded.
The scheme/authority branch of the parser is not modelled. -/
def uriParse (s : Str) : Except String PocoURI := do
  let path ← uriDecode (s.takeWhile fun c => !(c == '?' || c == '#'))
  uriQueryPart path (s.dropWhile fun c => !(c == '?' || c == '#'))

/-! ## Poco::Path (Unix style) -/

/-- A `Poco::Path` value: absolute flag, device, directory list and
filename. -/
structure PocoPath where
  absolute : Bool
  device : Str
  dirs : List Str
  name : Str
deriving DecidableEq

/-- `Poco::Path::pushDirectory`: drops empty and `.` segments and
resolves `..` against the directory list. -/
def pushDirectory (p : PocoPath) (dir : Str) : PocoPath :=
  if dir = [] ∨ dir = ['.'] then p
  else if dir = ['.', '.'] then
    if p.dirs ≠ [] ∧ p.dirs.getLast? ≠ some ['.', '.'] then { p with dirs := p.dirs.dropLast }
    else if ¬ p.absolute then { p with dirs := p.dirs ++ [dir] }
    else p
  else { p with dirs := p.dirs ++ [dir] }

/-- One step of the segment loop of `Poco::Path::parseUnix`: the first
segment seen while the directory list is empty becomes the device if it
ends in a colon, otherwise the segment is pushed. -/
def parseUnixStep (p : PocoPath) (seg : Str) : PocoPath :=
  if p.dirs = [] ∧ seg ≠ [] ∧ seg.getLast? = some ':' then
    { p with absolute := true, device := seg.dropLast }
  else pushDirectory p seg

/-- The character loop of `Poco::Path::parseUnix`: `cur` is the segment
accumulated since the last slash; the final segment becomes the
filename. -/
def parseUnixLoop (p : PocoPath) (cur : Str) : Str → PocoPath
  | [] => { p with name := cur }
  | c :: rest =>
    if c = '/' then parseUnixLoop (parseUnixStep p cur) [] rest
    else parseUnixLoop p (cur ++ [c]) rest

/-- `Poco::Path::parseUnix` (and the `PATH_UNIX` / native-on-Unix
`Poco::Path` constructor).  Home-directory expansion of a leading
tilde is not modelled; theorems only apply this to strings beginning
with a slash. -/
def parseUnix (s : Str) : PocoPath :=
  match s with
  | [] => ⟨false, [], [], []⟩
  | c :: rest =>
    if c = '/' then parseUnixLoop ⟨true, [], [], []⟩ [] rest
    else parseUnixLoop ⟨false, [], [], []⟩ [] (c :: rest)

/-- `Poco::Path::makeDirectory`: move the filename onto the directory
list. -/
def makeDirectory (p : PocoPath) : PocoPath :=
  let p' := pushDirectory p p.name
  { p' with name := [] }

/-- `Poco::Path::setFileName`. -/
def setFileName (p : PocoPath) (n : Str) : PocoPath := { p with name := n }

/-- `Poco::Path::depth`: the number of directories. -/
def depth (p : PocoPath) : Nat := p.dirs.length

/-- `Poco::Path::directory(n)` (`operator[]`): the n-th directory, or
the filename when `n` is out of range. -/
def directory (p : PocoPath) (n : Nat) : Str := p.dirs.getD n p.name

/-- `Poco::Path::toString` / `buildUnix`: optional device or leading
slash, each directory followed by a slash, then the filename. -/
def buildUnix (p : PocoPath) : Str :=
  (if p.device ≠ [] then '/' :: (p.device ++ [':', '/'])
   else if p.absolute then ['/'] else [])
  ++ p.dirs.foldr (fun d acc => d ++ '/' :: acc) []
  ++ p.name

/-! ## Poco::Net::HTMLForm and NameValueCollection -/

/-- The `+`-to-space conversion `HTMLForm::read` applies while reading
a query string. -/
def plusSp (c : Char) : Char := if c = '+' then ' ' else c

/-- The character loop of `HTMLForm::read(const std::string&)` before
percent-decoding: split the query on `&` into `name=value` pairs,
mapping `+` to space.  `inVal` says whether we are past the `=` of the
current pair. -/
def formReadAux (inVal : Bool) (nm vl : Str) : Str → List (Str × Str)
  | [] => [(nm, vl)]
  | c :: rest =>
    if c = '&' then (nm, vl) :: (if rest = [] then [] else formReadAux false [] [] rest)
    else if inVal = false ∧ c = '=' then formReadAux true nm vl rest
    else if inVal then formReadAux inVal nm (vl ++ [plusSp c]) rest
    else formReadAux inVal (nm ++ [plusSp c]) vl rest

/-- The raw (not yet percent-decoded) pairs of a query string. -/
def formPairs (q : Str) : List (Str × Str) :=
  if q = [] then [] else formReadAux false [] [] q

/-- Percent-decode one `name=value` pair, name first as in the C++. -/
def decodePair (pr : Str × Str) : Except String (Str × Str) := do
  let n ← uriDecode pr.1
  let v ← uriDecode pr.2
  return (n, v)

/-- `Poco::Net::HTMLForm::read(const std::string&)`: parse a query
string into decoded name/value pairs, throwing on a malformed percent
escape. -/
def formRead (q : Str) : Except String (List (Str × Str)) :=
  (formPairs q).mapM decodePair

/-- ASCII lower-casing, as used by `Poco::icompare`. -/
def asciiLower (c : Char) : Char :=
  if 'A' ≤ c ∧ c ≤ 'Z' then Char.ofNat (c.toNat + 32) else c

/-- Case-insensitive string equality (`Poco::icompare` returning 0),
the comparison `Poco::ListMap` (hence `NameValueCollection` and
`HTMLForm`) uses for name lookup. -/
def icompareEq (a b : Str) : Bool := a.map asciiLower == b.map asciiLower

/-- `Poco::Net::NameValueCollection::get(name, default)`: value of the
first pair whose name matches case-insensitively, or the default. -/
def nvcGet (ps : List (Str × Str)) (nm df : Str) : Str :=
  match ps.find? (fun pr => icompareEq pr.1 nm) with
  | some pr => pr.2
  | none => df

/-! ## The program: ImageUploadRequestHandler -/

/-- `ImageUploadRequestHandler::authorize`: parse the request URI, read
the raw query into an `HTMLForm` and compare the `token` parameter
(default empty) with the configured token.  Either parsing step can
throw, which the model surfaces as `.error`. -/
def authorize (uri token : Str) : Except String Bool := do
  let u ← uriParse uri
  let ps ← formRead u.query
  return nvcGet ps ("token".toList) [] == token

/-- `ImageUploadRequestHandler::uploadSite`: parse the request URI,
take its decoded path, make it directory-like and return the directory
at index 1 when the depth is at least 2, else `"defaultSite"`. -/
def uploadSite (uri : Str) : Except String Str := do
  let u ← uriParse uri
  let p := makeDirectory (parseUnix u.path)
  return if 2 ≤ depth p then directory p 1 else "defaultSite".toList

/-- `ImageUploadRequestHandler::uploadCamera`: run `Poco::Path`
directly on the raw request URI (no `Poco::URI` parse, so a query
string is part of the path), make it directory-like and return the
directory at index 2 when the depth is at least 3, else
`"defaultCamera"`. -/
def uploadCamera (uri : Str) : Str :=
  let p := makeDirectory (parseUnix uri)
  if 3 ≤ depth p then directory p 2 else "defaultCamera".toList

/-- The filename pattern `storeImage` hands to
`Poco::DateTimeFormatter::format`. -/
def fileNamePattern : Str := "%Y%m%d-%H%M%S-%F.jpg".toList

/-- The pure path computation of `ImageUploadRequestHandler::storeImage`
with the site and camera segments already extracted: parse the upload
base path, make it a directory, push site, camera, year,
zero-padded(month,2), zero-padded(day,2), zero-padded(hour,2), set the
timestamp filename and render the path. -/
def storeImagePath (uploadPath site camera : Str) (now : LocalDateTime) : Str :=
  let p := makeDirectory (parseUnix uploadPath)
  let p := pushDirectory p site
  let p := pushDirectory p camera
  let p := pushDirectory p (format now.year)
  let p := pushDirectory p (format0 now.month 2)
  let p := pushDirectory p (format0 now.day 2)
  let p := pushDirectory p (format0 now.hour 2)
  let p := setFileName p (dtfFormat now fileNamePattern)
  buildUnix p

/-- `ImageUploadRequestHandler::storeImage` up to its filesystem
effects: extract site and camera from the request URI (the `uploadSite`
URI parse can throw) and compute the target path for the single
`Poco::LocalDateTime` sample `now`. -/
def storeImage (uri uploadPath : Str) (now : LocalDateTime) : Except String Str := do
  let site ← uploadSite uri
  let camera := uploadCamera uri
  return storeImagePath uploadPath site camera now

/-! ## The request handler -/

/-- The parts of a `Poco::Net::HTTPServerRequest` the handler reads. -/
structure Request where
  method : Str
  uri : Str
  contentType : Str
deriving DecidableEq

/-- The resolved configuration values the handler reads:
`config.getString("upload.token", "")` and
`config.getString("upload.path", Poco::Path::current())`. -/
structure Config where
  uploadToken : Str
  uploadPath : Str
deriving DecidableEq

/-- Oracle for the filesystem operations inside `storeImage`:
everything succeeds, `createDirectories` throws, opening the
`FileOutputStream` throws (directories already created), or the stream
copy throws midway (file already created, body only partially read). -/
inductive StoreOutcome
  | ok
  | errCreateDirs
  | errOpenFile
  | errCopy
deriving DecidableEq

/-- Observable side effects of one `handleRequest` call, in order. -/
inductive Event
  | dirsCreated
  | fileCreated (path : Str)
  | bodyConsumed
  | responded (status : Nat) (message : Option Str)
deriving DecidableEq

/-- `ImageUploadRequestHandler::handleRequest`: method dispatch, token
authorization, content-type validation, store, uniform responses, with
the outer `catch (Poco::Exception&)` turning any throw that happens
before a response into 500 "error uploading file".  `.responded s m`
stands for `sendResponse(status, message)` (`m = none` for the bare
`response.send()` of the HEAD branch, whose status defaults to 200).
`.bodyConsumed` records that the request body stream was read to its
end (by `ignoreContent` or by a completed `StreamCopier::copyStream`).
Logging is not modelled. -/
def handleRequest (req : Request) (cfg : Config) (now : LocalDateTime)
    (disk : StoreOutcome) : List Event :=
  if req.method = "POST".toList then
    match authorize req.uri cfg.uploadToken with
    | .error _ => [.responded 500 (some ("error uploading file".toList))]
    | .ok true =>
      if req.contentType = "image/jpeg".toList then
        match storeImage req.uri cfg.uploadPath now with
        | .error _ => [.responded 500 (some ("error uploading file".toList))]
        | .ok path =>
          match disk with
          | .errCreateDirs => [.responded 500 (some ("error uploading file".toList))]
          | .errOpenFile => [.dirsCreated, .responded 500 (some ("error uploading file".toList))]
          | .errCopy => [.dirsCreated, .fileCreated path,
              .responded 500 (some ("error uploading file".toList))]
          | .ok => [.dirsCreated, .fileCreated path, .bodyConsumed,
              .responded 200 (some ("Image accepted".toList))]
      else [.bodyConsumed, .responded 400 (some ("Unexpected content type".toList))]
    | .ok false => [.bodyConsumed, .responded 400 (some ("Missing or invalid upload token".toList))]
  else if req.method = "GET".toList then
    [.responded 200 (some ("Image upload server ready".toList))]
  else if req.method = "HEAD".toList then
    [.responded 200 none]
  else
    [.responded 405 (some ("Request method not allowed".toList))]

/-- Number of responses in a trace. -/
def respondedCount (t : List Event) : Nat :=
  (t.filter fun e => match e with | .responded _ _ => true | _ => false).length

/-- Whether a full body read appears strictly before the first
response of a trace. -/
def consumedBeforeResponse : List Event → Bool
  | [] => false
  | .bodyConsumed :: _ => true
  | .responded _ _ :: _ => false
  | _ :: rest => consumedBeforeResponse rest

/-- Whether an event changes the filesystem (directory creation or
file creation). -/
def isStoreEffect : Event → Bool
  | .dirsCreated => true
  | .fileCreated _ => true
  | _ => false

/-- No filesystem effect (directory creation or file creation) occurs
in the trace. -/
def NoStoreEffects (t : List Event) : Prop :=
  ∀ e ∈ t, isStoreEffect e = false

/-! ## Claim-side definitions

Definitions written from the words of the specification, used to state
the claims against the embedded code. -/

/-- The ten decimal digit characters. -/
def decimalDigits : Str := "0123456789".toList

/-- A segment `Poco::Path::pushDirectory` stores verbatim: nonempty
and neither `.` nor `..`. -/
def PlainSeg (s : Str) : Prop := s ≠ [] ∧ s ≠ ['.'] ∧ s ≠ ['.', '.']

/-- A path segment that survives `Poco::Path` parsing unchanged: plain,
slash-free and not ending in a colon (which would make it a device). -/
def SegOk (s : Str) : Prop := PlainSeg s ∧ '/' ∉ s ∧ s.getLast? ≠ some ':'

/-- A path segment that additionally passes through `Poco::URI` parsing
unchanged: no query/fragment delimiters and no percent escapes. -/
def CleanSeg (s : Str) : Prop := SegOk s ∧ ∀ c ∈ s, c ≠ '?' ∧ c ≠ '#' ∧ c ≠ '%'

/-- Join path segments with slashes (no leading or trailing slash). -/
def joinSegs : List Str → Str
  | [] => []
  | [s] => s
  | s :: rest => s ++ '/' :: joinSegs rest

/-- Append `ext` to the last segment of a nonempty segment list. -/
def glueLast (segs : List Str) (ext : Str) : List Str :=
  segs.dropLast ++ [segs.getLastD [] ++ ext]

/-- The claim's site rule: the 2nd segment when there are at least 2,
else `"defaultSite"`. -/
def siteOf (segs : List Str) : Str :=
  if 2 ≤ segs.length then segs.getD 1 [] else "defaultSite".toList

/-- The claim's camera rule: the 3rd segment when there are at least 3,
else `"defaultCamera"`. -/
def cameraOf (segs : List Str) : Str :=
  if 3 ≤ segs.length then segs.getD 2 [] else "defaultCamera".toList

deriving instance DecidableEq for Except

instance (s : Str) : Decidable (PlainSeg s) := by
  unfold PlainSeg
  infer_instance

instance (s : Str) : Decidable (SegOk s) := by
  unfold SegOk
  infer_instance

instance (s : Str) : Decidable (CleanSeg s) := by
  unfold CleanSeg
  infer_instance

instance (t : List Event) : Decidable (NoStoreEffects t) := by
  unfold NoStoreEffects
  infer_instance

/-- The `token` query parameter of a request URI as the claim words it:
the value of the first query parameter literally named `token`
(case-sensitively), or the empty string when absent. -/
def tokenParamCS (uri : Str) : Except String Str := do
  let u ← uriParse uri
  let ps ← formRead u.query
  return (match ps.find? (fun pr => pr.1 == ("token".toList)) with
          | some pr => pr.2
          | none => [])

/-- The `token` query parameter under the amended (case-insensitive)
name matching actually performed by `NameValueCollection`. -/
def tokenParamCI (uri : Str) : Except String Str := do
  let u ← uriParse uri
  let ps ← formRead u.query
  return (match ps.find? (fun pr => icompareEq pr.1 ("token".toList)) with
          | some pr => pr.2
          | none => [])

/-! ## Helper lemmas: character scanning and decoding -/

theorem uriDecode_cons_ne (c : Char) (rest : Str) (hc : c ≠ '%') :
    uriDecode (c :: rest) = (uriDecode rest).map (fun d => c :: d) := by
  rcases rest with _ | ⟨hi, _ | ⟨lo, rest2⟩⟩ <;> simp [uriDecode, hc]

theorem uriDecode_eq_self (s : Str) (h : ∀ c ∈ s, c ≠ '%') : uriDecode s = .ok s := by
  induction s with
  | nil => rfl
  | cons c rest ih =>
    rw [uriDecode_cons_ne c rest (h c (by simp)), ih (fun d hd => h d (by simp [hd]))]
    rfl

theorem takeWhile_eq_self {p : Char → Bool} {s : Str} (h : ∀ c ∈ s, p c = true) :
    s.takeWhile p = s := by
  induction s with
  | nil => rfl
  | cons c rest ih =>
    simp only [List.takeWhile_cons, h c (by simp), if_true]
    exact congrArg _ (ih fun d hd => h d (by simp [hd]))

theorem dropWhile_eq_nil {p : Char → Bool} {s : Str} (h : ∀ c ∈ s, p c = true) :
    s.dropWhile p = [] := by
  induction s with
  | nil => rfl
  | cons c rest ih =>
    simp only [List.dropWhile_cons, h c (by simp), if_true]
    exact ih fun d hd => h d (by simp [hd])

theorem takeWhile_append_stop {p : Char → Bool} {a r : Str} {c : Char}
    (ha : ∀ x ∈ a, p x = true) (hc : p c = false) :
    (a ++ c :: r).takeWhile p = a := by
  induction a with
  | nil => simp [List.takeWhile_cons, hc]
  | cons x xs ih =>
    simp only [List.cons_append, List.takeWhile_cons, ha x (by simp), if_true]
    exact congrArg _ (ih fun d hd => ha d (by simp [hd]))

theorem dropWhile_append_stop {p : Char → Bool} {a r : Str} {c : Char}
    (ha : ∀ x ∈ a, p x = true) (hc : p c = false) :
    (a ++ c :: r).dropWhile p = c :: r := by
  induction a with
  | nil => simp [List.dropWhile_cons, hc]
  | cons x xs ih =>
    simp only [List.cons_append, List.dropWhile_cons, ha x (by simp), if_true]
    exact ih fun d hd => ha d (by simp [hd])

/-! ## Helper lemmas: decimal digit strings -/

theorem digitChar_mem (n : Nat) : digitChar n ∈ decimalDigits := by
  unfold digitChar
  repeat' split
  all_goals decide

theorem natDigitsAux_irrel : ∀ (f1 f2 n : Nat), n < f1 → n < f2 →
    natDigitsAux f1 n = natDigitsAux f2 n := by
  intro f1
  induction f1 with
  | zero =>
    intro f2 n h1 _
    omega
  | succ f ih =>
    intro f2 n h1 h2
    cases f2 with
    | zero => omega
    | succ f2' =>
      simp only [natDigitsAux]
      by_cases hn : n < 10
      · rw [if_pos hn, if_pos hn]
      · have hlt : n / 10 < n := Nat.div_lt_self (by omega) (by omega)
        rw [if_neg hn, if_neg hn, ih f2' (n / 10) (by omega) (by omega)]

theorem natDigits_eq (n : Nat) :
    natDigits n = if n < 10 then [digitChar n]
      else natDigits (n / 10) ++ [digitChar (n % 10)] := by
  show natDigitsAux (n + 1) n = _
  simp only [natDigitsAux]
  by_cases hn : n < 10
  · rw [if_pos hn, if_pos hn]
  · have hlt : n / 10 < n := Nat.div_lt_self (by omega) (by omega)
    rw [if_neg hn, if_neg hn,
      natDigitsAux_irrel n (n / 10 + 1) (n / 10) (by omega) (by omega)]
    rfl

theorem natDigits_mem (n : Nat) : ∀ c ∈ natDigits n, c ∈ decimalDigits := by
  induction n using Nat.strong_induction_on with
  | _ n ih =>
    rw [natDigits_eq]
    split
    · intro c hc
      rw [List.mem_singleton] at hc
      exact hc ▸ digitChar_mem n
    · intro c hc
      rcases List.mem_append.mp hc with h1 | h2
      · exact ih (n / 10) (Nat.div_lt_self (by omega) (by omega)) c h1
      · rw [List.mem_singleton] at h2
        exact h2 ▸ digitChar_mem (n % 10)

theorem natDigits_ne_nil (n : Nat) : natDigits n ≠ [] := by
  rw [natDigits_eq]
  split <;> simp

theorem natDigits_length_le (k : Nat) : ∀ n, n < 10 ^ (k + 1) → (natDigits n).length ≤ k + 1 := by
  induction k with
  | zero =>
    intro n h
    rw [natDigits_eq, if_pos (by omega)]
    simp
  | succ k ih =>
    intro n h
    rw [natDigits_eq]
    split
    · simp
    · have h10 : n / 10 < 10 ^ (k + 1) := by
        apply Nat.div_lt_of_lt_mul
        rw [← pow_succ']
        exact h
      have := ih (n / 10) h10
      simp only [List.length_append, List.length_singleton]
      omega

theorem natDigits_length_ge (k : Nat) : ∀ n, 10 ^ k ≤ n → k + 1 ≤ (natDigits n).length := by
  induction k with
  | zero =>
    intro n _
    have := natDigits_ne_nil n
    have : 0 < (natDigits n).length := List.length_pos.mpr this
    omega
  | succ k ih =>
    intro n h
    have hten : (10 : Nat) ≤ 10 ^ (k + 1) := by
      calc (10 : Nat) = 10 ^ 1 := (pow_one 10).symm
      _ ≤ 10 ^ (k + 1) := Nat.pow_le_pow_right (by omega) (by omega)
    rw [natDigits_eq]
    split
    · omega
    · have hdiv : 10 ^ k ≤ n / 10 := by
        rw [Nat.le_div_iff_mul_le (by omega), ← pow_succ]
        exact h
      have := ih (n / 10) hdiv
      simp only [List.length_append, List.length_singleton]
      omega

theorem format0_length (n w : Nat) (h : (natDigits n).length ≤ w) :
    (format0 n w).length = w := by
  simp only [format0, List.length_append, List.length_replicate]
  omega

theorem format0_eq_format (n w : Nat) (h : (natDigits n).length = w) :
    format0 n w = format n := by
  simp [format0, format, h]

theorem format0_mem (n w : Nat) : ∀ c ∈ format0 n w, c ∈ decimalDigits := by
  intro c hc
  rcases List.mem_append.mp hc with h1 | h2
  · rw [List.eq_of_mem_replicate h1]
    decide
  · exact natDigits_mem n c h2

theorem segOk_of_digits (s : Str) (hne : s ≠ []) (h : ∀ c ∈ s, c ∈ decimalDigits) :
    SegOk s := by
  refine ⟨⟨hne, ?_, ?_⟩, ?_, ?_⟩
  · intro heq
    exact absurd (h '.' (by simp [heq])) (by decide)
  · intro heq
    exact absurd (h '.' (by simp [heq])) (by decide)
  · intro hm
    exact absurd (h '/' hm) (by decide)
  · intro heq
    obtain ⟨hne2, hx⟩ := List.mem_getLast?_eq_getLast (Option.mem_def.mpr heq)
    have : ':' ∈ s := by
      rw [hx]
      exact List.getLast_mem hne2
    exact absurd (h ':' this) (by decide)

/-! ## Helper lemmas: Poco::Path parsing -/

theorem pushDirectory_plain (p : PocoPath) (s : Str) (h : PlainSeg s) :
    pushDirectory p s = { p with dirs := p.dirs ++ [s] } := by
  obtain ⟨h1, h2, h3⟩ := h
  simp [pushDirectory, h1, h2, h3]

theorem parseUnixStep_push (p : PocoPath) (s : Str) (h : SegOk s) :
    parseUnixStep p s = { p with dirs := p.dirs ++ [s] } := by
  obtain ⟨hp, -, hc⟩ := h
  have hcond : ¬(p.dirs = [] ∧ s ≠ [] ∧ s.getLast? = some ':') := by
    rintro ⟨-, -, hl⟩
    exact hc hl
  simp only [parseUnixStep, if_neg hcond]
  exact pushDirectory_plain p s hp

theorem parseUnixLoop_noSlash (p : PocoPath) (cur seg : Str) (h : '/' ∉ seg) :
    parseUnixLoop p cur seg = { p with name := cur ++ seg } := by
  induction seg generalizing cur with
  | nil => simp [parseUnixLoop]
  | cons c rest ih =>
    have hc : c ≠ '/' := by
      rintro rfl
      exact h (by simp)
    simp only [parseUnixLoop, if_neg hc]
    rw [ih (cur ++ [c]) (fun hm => h (List.mem_cons_of_mem _ hm))]
    simp

theorem parseUnixLoop_seg (p : PocoPath) (cur seg rest : Str) (h : '/' ∉ seg) :
    parseUnixLoop p cur (seg ++ '/' :: rest) =
      parseUnixLoop (parseUnixStep p (cur ++ seg)) [] rest := by
  induction seg generalizing cur with
  | nil => simp [parseUnixLoop]
  | cons c s ih =>
    have hc : c ≠ '/' := by
      rintro rfl
      exact h (by simp)
    simp only [List.cons_append, parseUnixLoop, if_neg hc, List.append_eq]
    rw [ih (cur ++ [c]) (fun hm => h (List.mem_cons_of_mem _ hm))]
    simp

theorem joinSegs_cons_ne (s : Str) (L : List Str) (h : L ≠ []) :
    joinSegs (s :: L) = s ++ '/' :: joinSegs L := by
  cases L with
  | nil => exact absurd rfl h
  | cons a t => rfl

theorem parseUnixLoop_joinSegs (dirs : List Str) (segs : List Str)
    (h : ∀ s ∈ segs, SegOk s) (hne : segs ≠ []) :
    parseUnixLoop ⟨true, [], dirs, []⟩ [] (joinSegs segs) =
      ⟨true, [], dirs ++ segs.dropLast, segs.getLastD []⟩ := by
  induction segs generalizing dirs with
  | nil => exact absurd rfl hne
  | cons s rest ih =>
    rcases rest with _ | ⟨s2, rest2⟩
    · rw [show joinSegs [s] = s from rfl,
        parseUnixLoop_noSlash _ _ _ (h s (by simp)).2.1]
      simp [List.getLastD]
    · have hs := h s (by simp)
      rw [joinSegs_cons_ne _ _ (by simp), parseUnixLoop_seg _ _ _ _ hs.2.1,
        List.nil_append, parseUnixStep_push _ _ hs]
      rw [ih (dirs ++ [s]) (fun t ht => h t (by simp [ht])) (by simp)]
      simp [List.append_assoc]

theorem parseUnix_joinSegs (segs : List Str) (h : ∀ s ∈ segs, SegOk s) (hne : segs ≠ []) :
    parseUnix ('/' :: joinSegs segs) = ⟨true, [], segs.dropLast, segs.getLastD []⟩ := by
  have : parseUnix ('/' :: joinSegs segs) =
      parseUnixLoop ⟨true, [], [], []⟩ [] (joinSegs segs) := by
    simp [parseUnix]
  rw [this, parseUnixLoop_joinSegs [] segs h hne]
  simp

theorem getLastD_mem (segs : List Str) (hne : segs ≠ []) : segs.getLastD [] ∈ segs := by
  rw [List.getLastD_eq_getLast?, List.getLast?_eq_getLast_of_ne_nil hne, Option.getD_some]
  exact List.getLast_mem hne

theorem dropLast_append_getLastD (segs : List Str) (hne : segs ≠ []) :
    segs.dropLast ++ [segs.getLastD []] = segs := by
  rw [List.getLastD_eq_getLast?, List.getLast?_eq_getLast_of_ne_nil hne, Option.getD_some]
  exact List.dropLast_append_getLast hne

theorem makeDirectory_parse (segs : List Str) (h : ∀ s ∈ segs, SegOk s) (hne : segs ≠ []) :
    makeDirectory (parseUnix ('/' :: joinSegs segs)) = ⟨true, [], segs, []⟩ := by
  rw [parseUnix_joinSegs segs h hne]
  have hl : SegOk (segs.getLastD []) := h _ (getLastD_mem segs hne)
  show makeDirectory ⟨true, [], segs.dropLast, segs.getLastD []⟩ = ⟨true, [], segs, []⟩
  simp only [makeDirectory]
  rw [pushDirectory_plain _ _ hl.1]
  rw [show (PocoPath.mk true [] segs.dropLast (segs.getLastD [])).dirs = segs.dropLast from rfl]
  rw [dropLast_append_getLastD segs hne]

theorem mem_joinSegs {c : Char} {segs : List Str} (h : c ∈ joinSegs segs) :
    c = '/' ∨ ∃ s ∈ segs, c ∈ s := by
  induction segs with
  | nil => simp [joinSegs] at h
  | cons s rest ih =>
    rcases rest with _ | ⟨s2, r2⟩
    · right
      exact ⟨s, by simp, h⟩
    · rw [joinSegs_cons_ne _ _ (by simp)] at h
      rcases List.mem_append.mp h with h1 | h2
      · right
        exact ⟨s, by simp, h1⟩
      · rcases List.mem_cons.mp h2 with rfl | h3
        · left
          rfl
        · rcases ih h3 with h4 | ⟨t, ht, hc⟩
          · left
            exact h4
          · right
            exact ⟨t, by simp [ht], hc⟩

theorem glueLast_ne_nil (segs : List Str) (ext : Str) : glueLast segs ext ≠ [] := by
  simp [glueLast]

theorem joinSegs_glueLast (segs : List Str) (hne : segs ≠ []) (ext : Str) :
    joinSegs (glueLast segs ext) = joinSegs segs ++ ext := by
  induction segs with
  | nil => exact absurd rfl hne
  | cons s rest ih =>
    rcases rest with _ | ⟨s2, r2⟩
    · simp [glueLast, joinSegs]
    · have hstep : glueLast (s :: s2 :: r2) ext = s :: glueLast (s2 :: r2) ext := rfl
      rw [hstep, joinSegs_cons_ne _ _ (glueLast_ne_nil _ _), ih (by simp),
        joinSegs_cons_ne s (s2 :: r2) (by simp)]
      simp

theorem glueLast_length (segs : List Str) (hne : segs ≠ []) (ext : Str) :
    (glueLast segs ext).length = segs.length := by
  have := List.length_pos.mpr hne
  simp [glueLast]
  omega

theorem glueLast_segOk (segs : List Str) (q : Str)
    (hs : ∀ s ∈ segs, SegOk s) (hne : segs ≠ [])
    (hq : ∀ c ∈ q, c ≠ '/') (hql : q.getLast? ≠ some ':') :
    ∀ s ∈ glueLast segs ('?' :: q), SegOk s := by
  intro s hsm
  rcases List.mem_append.mp hsm with h1 | h2
  · exact hs s (List.dropLast_subset _ h1)
  · rw [List.mem_singleton] at h2
    subst h2
    have hlast : SegOk (segs.getLastD []) := hs _ (getLastD_mem segs hne)
    refine ⟨⟨by simp, ?_, ?_⟩, ?_, ?_⟩
    · intro heq
      have : '?' ∈ segs.getLastD [] ++ '?' :: q := by simp
      rw [heq] at this
      simp at this
    · intro heq
      have : '?' ∈ segs.getLastD [] ++ '?' :: q := by simp
      rw [heq] at this
      simp at this
    · intro hm
      rcases List.mem_append.mp hm with hm1 | hm2
      · exact hlast.2.1 hm1
      · rcases List.mem_cons.mp hm2 with heq | hm3
        · exact absurd heq (by decide)
        · exact hq '/' hm3 rfl
    · rw [List.getLast?_append_cons]
      cases q with
      | nil => decide
      | cons a t =>
        rw [List.getLast?_cons_cons]
        exact hql

/-! ## Helper lemmas: Poco::URI parsing -/

theorem uriParse_noQuery (s : Str) (h : ∀ c ∈ s, c ≠ '?' ∧ c ≠ '#' ∧ c ≠ '%') :
    uriParse s = .ok ⟨s, [], []⟩ := by
  have ht : s.takeWhile (fun c => !(c == '?' || c == '#')) = s :=
    takeWhile_eq_self (fun c hc => by
      obtain ⟨h1, h2, -⟩ := h c hc
      simp [h1, h2])
  have hd : s.dropWhile (fun c => !(c == '?' || c == '#')) = [] :=
    dropWhile_eq_nil (fun c hc => by
      obtain ⟨h1, h2, -⟩ := h c hc
      simp [h1, h2])
  unfold uriParse
  rw [ht, hd, uriDecode_eq_self s (fun c hc => (h c hc).2.2)]
  rfl

theorem uriParse_query (a q : Str)
    (ha : ∀ c ∈ a, c ≠ '?' ∧ c ≠ '#' ∧ c ≠ '%')
    (hq : ∀ c ∈ q, c ≠ '#') :
    uriParse (a ++ '?' :: q) = .ok ⟨a, q, []⟩ := by
  have hp : ∀ c ∈ a, (fun c => !(c == '?' || c == '#')) c = true := fun c hc => by
    obtain ⟨h1, h2, -⟩ := ha c hc
    simp [h1, h2]
  have ht : (a ++ '?' :: q).takeWhile (fun c => !(c == '?' || c == '#')) = a :=
    takeWhile_append_stop hp (by simp)
  have hd : (a ++ '?' :: q).dropWhile (fun c => !(c == '?' || c == '#')) = '?' :: q :=
    dropWhile_append_stop hp (by simp)
  have htq : q.takeWhile (fun c => !(c == '#')) = q :=
    takeWhile_eq_self (fun c hc => by simp [hq c hc])
  have hdq : q.dropWhile (fun c => !(c == '#')) = [] :=
    dropWhile_eq_nil (fun c hc => by simp [hq c hc])
  unfold uriParse
  rw [ht, hd, uriDecode_eq_self a (fun c hc => (ha c hc).2.2)]
  show uriFragPart a (q.takeWhile fun c => !(c == '#')) (q.dropWhile fun c => !(c == '#')) =
    .ok ⟨a, q, []⟩
  rw [htq, hdq]
  rfl

theorem uriFragPart_ok (path q rest2 : Str) (h : ∀ c ∈ rest2, c ≠ '%') :
    ∃ u, uriFragPart path q rest2 = .ok u ∧ u.query = q := by
  rcases rest2 with _ | ⟨c, r⟩
  · exact ⟨⟨path, q, []⟩, rfl, rfl⟩
  · by_cases h1 : c = '#'
    · subst h1
      have hdec : uriDecode r = .ok r :=
        uriDecode_eq_self r (fun d hd => h d (List.mem_cons_of_mem _ hd))
      refine ⟨⟨path, q, r⟩, ?_, rfl⟩
      show (do
        let frag ← uriDecode r
        return (⟨path, q, frag⟩ : PocoURI) : Except String PocoURI) = _
      rw [hdec]
      rfl
    · refine ⟨⟨path, q, []⟩, ?_, rfl⟩
      unfold uriFragPart
      split
      · rename_i heq
        rw [List.cons.injEq] at heq
        exact absurd heq.1 h1
      · rfl

theorem uriQueryPart_ok (path rest1 : Str) (h : ∀ c ∈ rest1, c ≠ '%') :
    ∃ u, uriQueryPart path rest1 = .ok u ∧ ∀ c ∈ u.query, c ≠ '%' := by
  rcases rest1 with _ | ⟨c, r⟩
  · exact ⟨⟨path, [], []⟩, rfl, by simp⟩
  · by_cases h1 : c = '?'
    · subst h1
      obtain ⟨u, hu, huq⟩ := uriFragPart_ok path (r.takeWhile fun c => !(c == '#'))
        (r.dropWhile fun c => !(c == '#'))
        (fun d hd => h d (List.mem_cons_of_mem _ ((List.dropWhile_sublist _).subset hd)))
      refine ⟨u, hu, ?_⟩
      rw [huq]
      exact fun d hd => h d (List.mem_cons_of_mem _ ((List.takeWhile_sublist _).subset hd))
    · by_cases h2 : c = '#'
      · subst h2
        have hdec : uriDecode r = .ok r :=
          uriDecode_eq_self r (fun d hd => h d (List.mem_cons_of_mem _ hd))
        refine ⟨⟨path, [], r⟩, ?_, by simp⟩
        show (do
          let frag ← uriDecode r
          return (⟨path, [], frag⟩ : PocoURI) : Except String PocoURI) = _
        rw [hdec]
        rfl
      · refine ⟨⟨path, [], []⟩, ?_, by simp⟩
        unfold uriQueryPart
        split
        · rename_i heq
          rw [List.cons.injEq] at heq
          exact absurd heq.1 h1
        · rename_i heq
          rw [List.cons.injEq] at heq
          exact absurd heq.1 h2
        · rfl

theorem uriParse_ok_of_noPercent (s : Str) (h : ∀ c ∈ s, c ≠ '%') :
    ∃ u, uriParse s = .ok u ∧ ∀ c ∈ u.query, c ≠ '%' := by
  have hdec : uriDecode (s.takeWhile fun c => !(c == '?' || c == '#')) =
      .ok (s.takeWhile fun c => !(c == '?' || c == '#')) :=
    uriDecode_eq_self _ (fun c hc => h c ((List.takeWhile_sublist _).subset hc))
  obtain ⟨u, hu, huq⟩ := uriQueryPart_ok (s.takeWhile fun c => !(c == '?' || c == '#'))
    (s.dropWhile fun c => !(c == '?' || c == '#'))
    (fun c hc => h c ((List.dropWhile_sublist _).subset hc))
  refine ⟨u, ?_, huq⟩
  unfold uriParse
  rw [hdec]
  exact hu

/-! ## Helper lemmas: HTMLForm reading -/

theorem plusSp_ne_percent (c : Char) (h : c ≠ '%') : plusSp c ≠ '%' := by
  unfold plusSp
  split
  · decide
  · exact h

theorem formReadAux_noPercent (q : Str) :
    ∀ (b : Bool) (nm vl : Str), (∀ c ∈ q, c ≠ '%') → (∀ c ∈ nm, c ≠ '%') →
      (∀ c ∈ vl, c ≠ '%') →
      ∀ pr ∈ formReadAux b nm vl q, (∀ c ∈ pr.1, c ≠ '%') ∧ ∀ c ∈ pr.2, c ≠ '%' := by
  induction q with
  | nil =>
    intro b nm vl _ hn hv pr hpr
    rw [show formReadAux b nm vl [] = [(nm, vl)] from rfl, List.mem_singleton] at hpr
    subst hpr
    exact ⟨hn, hv⟩
  | cons c rest ih =>
    intro b nm vl hq hn hv pr hpr
    have hc : c ≠ '%' := hq c (by simp)
    have hrest : ∀ d ∈ rest, d ≠ '%' := fun d hd => hq d (List.mem_cons_of_mem _ hd)
    unfold formReadAux at hpr
    split at hpr
    · rcases List.mem_cons.mp hpr with rfl | hpr2
      · exact ⟨hn, hv⟩
      · split at hpr2
        · simp at hpr2
        · exact ih false [] [] hrest (by simp) (by simp) pr hpr2
    · split at hpr
      · exact ih true nm vl hrest hn hv pr hpr
      · split at hpr
        · refine ih b nm (vl ++ [plusSp c]) hrest hn ?_ pr hpr
          intro d hd
          rcases List.mem_append.mp hd with hd1 | hd2
          · exact hv d hd1
          · rw [List.mem_singleton] at hd2
            exact hd2 ▸ plusSp_ne_percent c hc
        · refine ih b (nm ++ [plusSp c]) vl hrest ?_ hv pr hpr
          intro d hd
          rcases List.mem_append.mp hd with hd1 | hd2
          · exact hn d hd1
          · rw [List.mem_singleton] at hd2
            exact hd2 ▸ plusSp_ne_percent c hc

theorem mapM_ok_of_forall {α β : Type} (l : List α) (f : α → Except String β)
    (h : ∀ x ∈ l, ∃ y, f x = .ok y) : ∃ l2, l.mapM f = .ok l2 := by
  induction l with
  | nil => exact ⟨[], rfl⟩
  | cons a t ih =>
    obtain ⟨y, hy⟩ := h a (by simp)
    obtain ⟨l2, hl2⟩ := ih (fun x hx => h x (List.mem_cons_of_mem _ hx))
    refine ⟨y :: l2, ?_⟩
    rw [List.mapM_cons, hy, hl2]
    rfl

theorem formRead_ok_of_noPercent (q : Str) (h : ∀ c ∈ q, c ≠ '%') :
    ∃ ps, formRead q = .ok ps := by
  unfold formRead
  apply mapM_ok_of_forall
  intro pr hpr
  have hmem : pr ∈ formReadAux false [] [] q := by
    unfold formPairs at hpr
    split at hpr
    · simp at hpr
    · exact hpr
  obtain ⟨h1, h2⟩ := formReadAux_noPercent q false [] [] h (by simp) (by simp) pr hmem
  refine ⟨(pr.1, pr.2), ?_⟩
  unfold decodePair
  rw [uriDecode_eq_self pr.1 h1, uriDecode_eq_self pr.2 h2]
  rfl

/-! ## Helper lemmas: Except reductions and path rendering -/

theorem except_bind_ok {α β : Type} (a : α) (f : α → Except String β) :
    (Except.ok a >>= f) = f a := rfl

theorem except_bind_error {α β : Type} (e : String) (f : α → Except String β) :
    ((Except.error e : Except String α) >>= f) = .error e := rfl

theorem except_pure_eq {α : Type} (a : α) : (pure a : Except String α) = .ok a := rfl

theorem format0_ne_nil (n w : Nat) : format0 n w ≠ [] := by
  unfold format0
  intro h
  rw [List.append_eq_nil] at h
  exact natDigits_ne_nil n h.2

theorem foldr_slash_name (D : List Str) (nm : Str) :
    D.foldr (fun d acc => d ++ '/' :: acc) [] ++ nm =
      D.foldr (fun d acc => d ++ '/' :: acc) nm := by
  induction D with
  | nil => rfl
  | cons d rest ih => simp [List.foldr_cons, List.append_assoc, ih]

theorem buildUnix_mk (D : List Str) (nm : Str) :
    buildUnix ⟨true, [], D, nm⟩ = '/' :: D.foldr (fun d acc => d ++ '/' :: acc) nm := by
  unfold buildUnix
  simp [foldr_slash_name]

theorem foldr_slash_eq_joinSegs (segs : List Str) (tail : Str) (hne : segs ≠ []) :
    segs.foldr (fun d acc => d ++ '/' :: acc) tail = joinSegs segs ++ '/' :: tail := by
  induction segs with
  | nil => exact absurd rfl hne
  | cons s rest ih =>
    rcases rest with _ | ⟨s2, r2⟩
    · simp [joinSegs]
    · rw [List.foldr_cons, ih (by simp), joinSegs_cons_ne s _ (by simp)]
      simp

/-! ## Claim theorems -/

/-- C5: for every request, a GET is answered 200 "Image upload server
ready", a HEAD is answered with an empty send whose status defaults to
200 and that carries no body (modelled as `.responded 200 none`), and
any method other than POST, GET and HEAD is answered 405 "Request
method not allowed". -/
theorem method_dispatch_responses (req : Request) (cfg : Config) (now : LocalDateTime)
    (disk : StoreOutcome) :
    (req.method = "GET".toList →
      handleRequest req cfg now disk =
        [.responded 200 (some ("Image upload server ready".toList))])
  ∧ (req.method = "HEAD".toList →
      handleRequest req cfg now disk = [.responded 200 none])
  ∧ (req.method ≠ "POST".toList → req.method ≠ "GET".toList → req.method ≠ "HEAD".toList →
      handleRequest req cfg now disk =
        [.responded 405 (some ("Request method not allowed".toList))]) := by
  refine ⟨?_, ?_, ?_⟩
  · intro hm
    unfold handleRequest
    rw [hm, if_neg (by decide), if_pos rfl]
  · intro hm
    unfold handleRequest
    rw [hm, if_neg (by decide), if_neg (by decide), if_pos rfl]
  · intro h1 h2 h3
    unfold handleRequest
    rw [if_neg h1, if_neg h2, if_neg h3]

theorem method_dispatch_responses_witness :
    handleRequest ⟨"GET".toList, "/anything".toList, []⟩ ⟨[], "/data".toList⟩
        ⟨2024, 1, 1, 0, 0, 0, 0, 0⟩ .ok =
      [.responded 200 (some ("Image upload server ready".toList))] :=
  (method_dispatch_responses _ _ _ _).1 rfl

/-- C4: for every POST whose token check comes back false, the body is
drained and the response is 400 "Missing or invalid upload token"; for
every authenticated POST whose content type is not the exact literal
`image/jpeg`, the body is drained and the response is 400 "Unexpected
content type".  Authentication is checked first: the first conjunct
holds whatever the content type is. -/
theorem post_rejection_responses (req : Request) (cfg : Config) (now : LocalDateTime)
    (disk : StoreOutcome) (hm : req.method = "POST".toList) :
    (authorize req.uri cfg.uploadToken = .ok false →
      handleRequest req cfg now disk =
        [.bodyConsumed, .responded 400 (some ("Missing or invalid upload token".toList))])
  ∧ (authorize req.uri cfg.uploadToken = .ok true →
      req.contentType ≠ "image/jpeg".toList →
      handleRequest req cfg now disk =
        [.bodyConsumed, .responded 400 (some ("Unexpected content type".toList))]) := by
  constructor
  · intro ha
    unfold handleRequest
    rw [hm, if_pos rfl, ha]
  · intro ha hct
    unfold handleRequest
    rw [hm, if_pos rfl, ha, if_neg hct]

theorem post_rejection_responses_witness :
    handleRequest ⟨"POST".toList, "/a?token=y".toList, "image/jpeg".toList⟩
        ⟨"x".toList, "/data".toList⟩ ⟨2024, 1, 1, 0, 0, 0, 0, 0⟩ .ok =
      [.bodyConsumed, .responded 400 (some ("Missing or invalid upload token".toList))] :=
  (post_rejection_responses _ _ _ _ rfl).1 (by decide)

/-- C6: every request produces exactly one response; a POST on which
`authorize` throws is answered 500 "error uploading file", and a POST
that passes authorization and content-type validation but whose
filesystem operations fail is also answered 500 "error uploading file".
`handleRequest` is a total function into traces, so no exception
escapes the handler in the model; only `Poco::Exception` throwers are
modelled, matching the `catch` clause. -/
theorem single_response_and_error_recovery (req : Request) (cfg : Config)
    (now : LocalDateTime) (disk : StoreOutcome) :
    respondedCount (handleRequest req cfg now disk) = 1
  ∧ (req.method = "POST".toList → ∀ e, authorize req.uri cfg.uploadToken = .error e →
      handleRequest req cfg now disk =
        [.responded 500 (some ("error uploading file".toList))])
  ∧ (req.method = "POST".toList → authorize req.uri cfg.uploadToken = .ok true →
      req.contentType = "image/jpeg".toList → disk ≠ .ok →
      .responded 500 (some ("error uploading file".toList)) ∈ handleRequest req cfg now disk) := by
  refine ⟨?_, ?_, ?_⟩
  · unfold handleRequest
    repeat' split
    all_goals rfl
  · intro hm e he
    unfold handleRequest
    rw [hm, if_pos rfl, he]
  · intro hm ha hct hd
    unfold handleRequest
    rw [hm, if_pos rfl, ha, if_pos hct]
    rcases hst : storeImage req.uri cfg.uploadPath now with e | p
    · simp
    · cases disk with
      | ok => exact absurd rfl hd
      | errCreateDirs => simp
      | errOpenFile => simp
      | errCopy => simp

theorem single_response_and_error_recovery_witness :
    respondedCount (handleRequest ⟨"POST".toList, "/%zz".toList, "image/jpeg".toList⟩
      ⟨[], "/data".toList⟩ ⟨2024, 1, 1, 0, 0, 0, 0, 0⟩ .errCopy) = 1 :=
  (single_response_and_error_recovery _ _ _ _).1

/-- C8: no filesystem effect happens outside the fully accepted POST
path: any non-POST request, any POST with a false token check and any
authenticated POST with a wrong content type leaves the filesystem
unchanged (no directory creation, no file creation). -/
theorem no_store_effects_on_rejection (req : Request) (cfg : Config) (now : LocalDateTime)
    (disk : StoreOutcome) :
    (req.method ≠ "POST".toList → NoStoreEffects (handleRequest req cfg now disk))
  ∧ (req.method = "POST".toList → authorize req.uri cfg.uploadToken = .ok false →
      NoStoreEffects (handleRequest req cfg now disk))
  ∧ (req.method = "POST".toList → authorize req.uri cfg.uploadToken = .ok true →
      req.contentType ≠ "image/jpeg".toList →
      NoStoreEffects (handleRequest req cfg now disk)) := by
  refine ⟨?_, ?_, ?_⟩
  · intro h1
    unfold handleRequest
    rw [if_neg h1]
    split
    · decide
    · split
      · decide
      · decide
  · intro hm ha
    unfold handleRequest
    rw [hm, if_pos rfl, ha]
    exact (by decide : NoStoreEffects [.bodyConsumed,
      .responded 400 (some ("Missing or invalid upload token".toList))])
  · intro hm ha hct
    unfold handleRequest
    rw [hm, if_pos rfl, ha, if_neg hct]
    exact (by decide : NoStoreEffects [.bodyConsumed,
      .responded 400 (some ("Unexpected content type".toList))])

theorem no_store_effects_on_rejection_witness :
    NoStoreEffects (handleRequest ⟨"POST".toList, "/site1/cam7?token=bad".toList,
      "image/jpeg".toList⟩ ⟨"secret".toList, "/data".toList⟩
      ⟨2024, 1, 1, 0, 0, 0, 0, 0⟩ .ok) :=
  (no_store_effects_on_rejection _ _ _ _).2.1 rfl (by decide)

/-- C7 (amended): on a POST the body is fully consumed before the
response when the token check returns false, when the content type is
rejected, and when the store succeeds; but on an internal error — the
token check throwing, or a filesystem failure during the store — the
500 response is sent without the body having been fully consumed.  The
original claim ("for every outcome") fails on the internal-error
paths. -/
theorem body_consumption_discipline (req : Request) (cfg : Config) (now : LocalDateTime)
    (disk : StoreOutcome) (hm : req.method = "POST".toList) :
    (authorize req.uri cfg.uploadToken = .ok false →
      consumedBeforeResponse (handleRequest req cfg now disk) = true)
  ∧ (authorize req.uri cfg.uploadToken = .ok true → req.contentType ≠ "image/jpeg".toList →
      consumedBeforeResponse (handleRequest req cfg now disk) = true)
  ∧ (∀ p, authorize req.uri cfg.uploadToken = .ok true →
      req.contentType = "image/jpeg".toList →
      storeImage req.uri cfg.uploadPath now = .ok p → disk = .ok →
      consumedBeforeResponse (handleRequest req cfg now disk) = true)
  ∧ (∀ e, authorize req.uri cfg.uploadToken = .error e →
      consumedBeforeResponse (handleRequest req cfg now disk) = false)
  ∧ (∀ p, authorize req.uri cfg.uploadToken = .ok true →
      req.contentType = "image/jpeg".toList →
      storeImage req.uri cfg.uploadPath now = .ok p → disk ≠ .ok →
      consumedBeforeResponse (handleRequest req cfg now disk) = false) := by
  refine ⟨?_, ?_, ?_, ?_, ?_⟩
  · intro ha
    unfold handleRequest
    rw [hm, if_pos rfl, ha]
    rfl
  · intro ha hct
    unfold handleRequest
    rw [hm, if_pos rfl, ha, if_neg hct]
    rfl
  · intro p ha hct hst hd
    unfold handleRequest
    rw [hm, if_pos rfl, ha, if_pos hct, hst, hd]
    rfl
  · intro e ha
    unfold handleRequest
    rw [hm, if_pos rfl, ha]
    rfl
  · intro p ha hct hst hd
    unfold handleRequest
    rw [hm, if_pos rfl, ha, if_pos hct, hst]
    cases disk with
    | ok => exact absurd rfl hd
    | errCreateDirs => rfl
    | errOpenFile => rfl
    | errCopy => rfl

theorem body_consumption_discipline_witness :
    consumedBeforeResponse (handleRequest ⟨"POST".toList, "/a?token=n".toList,
      "text/plain".toList⟩ ⟨"s".toList, "/data".toList⟩
      ⟨2024, 1, 1, 0, 0, 0, 0, 0⟩ .ok) = true :=
  (body_consumption_discipline _ _ _ _ rfl).1 (by decide)

/-- C7 counterexample: a POST whose request URI carries a malformed
percent escape makes `authorize` throw; the handler answers 500 without
any body consumption, so the body stream is not fully consumed before
the response on this outcome. -/
theorem body_consumption_counterexample :
    handleRequest ⟨"POST".toList, "/%zz".toList, "image/jpeg".toList⟩
        ⟨[], "/data".toList⟩ ⟨2024, 1, 1, 0, 0, 0, 0, 0⟩ .ok =
      [.responded 500 (some ("error uploading file".toList))]
  ∧ Event.bodyConsumed ∉ handleRequest ⟨"POST".toList, "/%zz".toList, "image/jpeg".toList⟩
      ⟨[], "/data".toList⟩ ⟨2024, 1, 1, 0, 0, 0, 0, 0⟩ .ok :=
  ⟨rfl, by decide⟩

/-- C2 counterexample: the claim says the token check accepts iff the
`token` query parameter equals the configured token, but the form
lookup of `NameValueCollection` matches parameter names
case-insensitively: a request supplying only `TOKEN=s` is accepted
although its `token` parameter is absent (the empty string), which
differs from the configured token `s`. -/
theorem authorize_token_case_counterexample :
    authorize ("/x?TOKEN=s".toList) ("s".toList) = .ok true
  ∧ tokenParamCS ("/x?TOKEN=s".toList) = .ok ([] : Str)
  ∧ ([] : Str) ≠ "s".toList :=
  ⟨by decide, by decide, by decide⟩

/-- C2 (amended): for every origin-form request URI and configured
token, the token check accepts exactly when the `token` query parameter
— matched case-insensitively by name, the empty string when absent —
equals the configured token; in particular an empty configured token
and an absent query token are accepted together. -/
theorem authorize_matches_tokenParam (uri token : Str) (_h0 : uri.head? = some '/') :
    authorize uri token = .ok true ↔ tokenParamCI uri = .ok token := by
  unfold authorize tokenParamCI
  rcases hu : uriParse uri with e | u
  · simp only [except_bind_error]
    simp
  · simp only [except_bind_ok]
    rcases hf : formRead u.query with e2 | ps
    · simp only [except_bind_error]
      simp
    · simp only [except_bind_ok, except_pure_eq]
      unfold nvcGet
      rcases hfind : ps.find? (fun pr => icompareEq pr.1 ("token".toList)) with _ | pr
      · simp
      · simp

theorem authorize_matches_tokenParam_witness :
    authorize ("/a?token=s".toList) ("s".toList) = .ok true ↔
      tokenParamCI ("/a?token=s".toList) = .ok ("s".toList) :=
  authorize_matches_tokenParam _ _ rfl

/-- C9 counterexample: `authorize` throws on a malformed request URI —
a bad percent escape in the path makes the `Poco::URI` constructor
throw a syntax exception, so the claim that `authenticate` must not
throw on malformed request URIs fails on the code. -/
theorem authorize_throw_counterexample :
    authorize ("/%zz".toList) [] = .error "URI encoding: not a hex digit" := rfl

/-- C9 (amended): the token check is pure — in the embedding it is a
function of the request URI and the configured token alone, with no
side effects — and it returns (never throws) on every origin-form
request URI free of percent escapes; on a malformed percent escape it
throws a syntax exception, which the handler catches and answers
with 500. -/
theorem authorize_pure_total (uri token : Str) (_h0 : uri.head? = some '/')
    (h : ∀ c ∈ uri, c ≠ '%') : ∃ b, authorize uri token = .ok b := by
  obtain ⟨u, hu, hq⟩ := uriParse_ok_of_noPercent uri h
  obtain ⟨ps, hps⟩ := formRead_ok_of_noPercent u.query hq
  refine ⟨nvcGet ps ("token".toList) [] == token, ?_⟩
  unfold authorize
  rw [hu]
  simp only [except_bind_ok]
  rw [hps]
  simp only [except_bind_ok, except_pure_eq]

theorem authorize_pure_total_witness :
    ∃ b, authorize ("/site1/cam7?token=t".toList) ("t".toList) = .ok b :=
  authorize_pure_total _ _ rfl (by decide)

/-- C3 counterexample: `uploadCamera` runs `Poco::Path` on the raw
request URI, so an appended query string is not ignored: on
`/a/b/c?token=x` it returns `c?token=x`, not the third path segment
`c` the claim predicts. -/
theorem uploadCamera_query_counterexample :
    uploadCamera ("/a/b/c?token=x".toList) = "c?token=x".toList
  ∧ "c?token=x".toList ≠ "c".toList :=
  ⟨rfl, by decide⟩

/-- C3 (amended): on an origin-form URI whose path consists of
ordinary segments, `uploadSite` returns the 2nd segment when there are
at least 2 and `"defaultSite"` otherwise, ignoring any query string;
`uploadCamera` applies the same positional rule for the 3rd segment
and `"defaultCamera"`, and does not error on short paths, but it
operates on the raw URI string, so an appended query string becomes
part of the trailing segment instead of being ignored. -/
theorem upload_segment_extraction (segs : List Str) (q : Str)
    (hs : ∀ s ∈ segs, CleanSeg s) (hne : segs ≠ [])
    (hq : ∀ c ∈ q, c ≠ '#' ∧ c ≠ '%' ∧ c ≠ '/') (hql : q.getLast? ≠ some ':') :
    uploadSite ('/' :: joinSegs segs) = .ok (siteOf segs)
  ∧ uploadSite ('/' :: joinSegs segs ++ '?' :: q) = .ok (siteOf segs)
  ∧ uploadCamera ('/' :: joinSegs segs) = cameraOf segs
  ∧ uploadCamera ('/' :: joinSegs segs ++ '?' :: q) = cameraOf (glueLast segs ('?' :: q)) := by
  have hsOk : ∀ s ∈ segs, SegOk s := fun s h1 => (hs s h1).1
  have hchars : ∀ c ∈ '/' :: joinSegs segs, c ≠ '?' ∧ c ≠ '#' ∧ c ≠ '%' := by
    intro c hc
    rcases List.mem_cons.mp hc with rfl | hj
    · exact ⟨by decide, by decide, by decide⟩
    · rcases mem_joinSegs hj with rfl | ⟨s, hsm, hcs⟩
      · exact ⟨by decide, by decide, by decide⟩
      · exact (hs s hsm).2 c hcs
  refine ⟨?_, ?_, ?_, ?_⟩
  · unfold uploadSite
    rw [uriParse_noQuery _ hchars]
    simp only [except_bind_ok]
    rw [makeDirectory_parse segs hsOk hne]
    rfl
  · unfold uploadSite
    rw [uriParse_query _ _ hchars (fun c hc => (hq c hc).1)]
    simp only [except_bind_ok]
    rw [makeDirectory_parse segs hsOk hne]
    rfl
  · unfold uploadCamera
    rw [makeDirectory_parse segs hsOk hne]
    rfl
  · have hjoin : ('/' :: joinSegs segs ++ '?' :: q : Str) =
        '/' :: joinSegs (glueLast segs ('?' :: q)) := by
      rw [joinSegs_glueLast segs hne]
      rfl
    unfold uploadCamera
    rw [hjoin, makeDirectory_parse _ (glueLast_segOk segs q hsOk hne
      (fun c hc => (hq c hc).2.2) hql) (glueLast_ne_nil _ _)]
    rfl

theorem upload_segment_extraction_witness :
    uploadSite ("/a/b/c?token=x".toList) = .ok ("b".toList)
  ∧ uploadCamera ("/a/b/c?token=x".toList) = "c?token=x".toList := by
  have h := upload_segment_extraction ["a".toList, "b".toList, "c".toList]
    ("token=x".toList) (by decide) (by decide) (by decide) (by decide)
  exact ⟨h.2.1, h.2.2.2⟩

/-- C1: for every accepted and stored upload, the computed target path
is `<upload.path>/<site>/<camera>/<YYYY>/<MM>/<DD>/<HH>/<filename>`
with the filename `YYYYMMDD-HHMMSS-ffffff.jpg`, all time components
taken from the single local wall-clock sample `now`; the year renders
as 4 digits and the month, day and hour directories are zero-padded to
exactly 2 digits.  `site` and `camera` are the values the segment
extractors produced from the request URI. -/
theorem storeImage_path_layout (bsegs : List Str) (site camera : Str) (now : LocalDateTime)
    (hb : ∀ s ∈ bsegs, SegOk s) (hbne : bsegs ≠ [])
    (hsite : SegOk site) (hcam : SegOk camera)
    (hy1 : 1000 ≤ now.year) (hy2 : now.year ≤ 9999)
    (hmo : now.month ≤ 12) (hd : now.day ≤ 31) (hh : now.hour ≤ 23) :
    storeImagePath ('/' :: joinSegs bsegs) site camera now =
      '/' :: (joinSegs bsegs ++ '/' :: (site ++ '/' :: (camera ++ '/' ::
        (format now.year ++ '/' :: (format0 now.month 2 ++ '/' :: (format0 now.day 2 ++ '/' ::
        (format0 now.hour 2 ++ '/' :: dtfFormat now fileNamePattern)))))))
  ∧ dtfFormat now fileNamePattern =
      format0 now.year 4 ++ (format0 now.month 2 ++ (format0 now.day 2 ++ ('-' ::
        (format0 now.hour 2 ++ (format0 now.minute 2 ++ (format0 now.second 2 ++ ('-' ::
        (format0 (now.millisecond * 1000 + now.microsecond) 6 ++ ".jpg".toList))))))))
  ∧ (format now.year).length = 4
  ∧ (format0 now.month 2).length = 2
  ∧ (format0 now.day 2).length = 2
  ∧ (format0 now.hour 2).length = 2 := by
  have hYlen : (natDigits now.year).length = 4 := by
    have h1 := natDigits_length_le 3 now.year (by
      have e : (10 : Nat) ^ (3 + 1) = 10000 := by norm_num
      omega)
    have h2 := natDigits_length_ge 3 now.year (by
      have e : (10 : Nat) ^ 3 = 1000 := by norm_num
      omega)
    omega
  have hMlen : (natDigits now.month).length ≤ 2 := natDigits_length_le 1 now.month (by
    have e : (10 : Nat) ^ (1 + 1) = 100 := by norm_num
    omega)
  have hDlen : (natDigits now.day).length ≤ 2 := natDigits_length_le 1 now.day (by
    have e : (10 : Nat) ^ (1 + 1) = 100 := by norm_num
    omega)
  have hHlen : (natDigits now.hour).length ≤ 2 := natDigits_length_le 1 now.hour (by
    have e : (10 : Nat) ^ (1 + 1) = 100 := by norm_num
    omega)
  have hYseg : PlainSeg (format now.year) :=
    (segOk_of_digits _ (natDigits_ne_nil _) (natDigits_mem _)).1
  have hMseg : PlainSeg (format0 now.month 2) :=
    (segOk_of_digits _ (format0_ne_nil _ _) (format0_mem _ _)).1
  have hDseg : PlainSeg (format0 now.day 2) :=
    (segOk_of_digits _ (format0_ne_nil _ _) (format0_mem _ _)).1
  have hHseg : PlainSeg (format0 now.hour 2) :=
    (segOk_of_digits _ (format0_ne_nil _ _) (format0_mem _ _)).1
  refine ⟨?_, rfl, hYlen, format0_length _ _ hMlen, format0_length _ _ hDlen,
    format0_length _ _ hHlen⟩
  unfold storeImagePath
  dsimp only
  rw [makeDirectory_parse bsegs hb hbne, pushDirectory_plain _ _ hsite.1,
    pushDirectory_plain _ _ hcam.1, pushDirectory_plain _ _ hYseg,
    pushDirectory_plain _ _ hMseg, pushDirectory_plain _ _ hDseg,
    pushDirectory_plain _ _ hHseg]
  unfold setFileName
  dsimp only
  rw [buildUnix_mk]
  simp only [List.append_assoc]
  rw [List.foldr_append]
  rw [foldr_slash_eq_joinSegs bsegs _ hbne]
  rfl

theorem storeImage_path_layout_witness :
    storeImagePath ("/data".toList) ("site1".toList) ("cam7".toList)
        ⟨2024, 3, 5, 7, 6, 2, 123, 456⟩ =
      "/data/site1/cam7/2024/03/05/07/20240305-070602-123456.jpg".toList := by
  have h := (storeImage_path_layout ["data".toList] ("site1".toList) ("cam7".toList)
    ⟨2024, 3, 5, 7, 6, 2, 123, 456⟩ (by decide) (by decide) (by decide) (by decide)
    (by decide) (by decide) (by decide) (by decide) (by decide)).1
  exact h

/-- C10: `storeImage` samples the local wall clock once and threads
that single `now` through both the directory components and the
filename, so the filename always opens with exactly the strings used
for the year, month, day and hour directories
(`format now.year`, `format0 now.month 2`, `format0 now.day 2`,
`format0 now.hour 2`), even across a calendar boundary. -/
theorem timestamp_directory_agreement (now : LocalDateTime) (hy1 : 1000 ≤ now.year)
    (hy2 : now.year ≤ 9999) :
    dtfFormat now fileNamePattern =
      format now.year ++ (format0 now.month 2 ++ (format0 now.day 2 ++ ('-' ::
        (format0 now.hour 2 ++ (format0 now.minute 2 ++ (format0 now.second 2 ++ ('-' ::
        (format0 (now.millisecond * 1000 + now.microsecond) 6 ++ ".jpg".toList)))))))) := by
  have hYlen : (natDigits now.year).length = 4 := by
    have h1 := natDigits_length_le 3 now.year (by
      have e : (10 : Nat) ^ (3 + 1) = 10000 := by norm_num
      omega)
    have h2 := natDigits_length_ge 3 now.year (by
      have e : (10 : Nat) ^ 3 = 1000 := by norm_num
      omega)
    omega
  have hY : format0 now.year 4 = format now.year := format0_eq_format _ _ hYlen
  rw [← hY]
  rfl

theorem timestamp_directory_agreement_witness :
    dtfFormat ⟨2024, 12, 31, 23, 59, 59, 999, 999⟩ fileNamePattern =
      format 2024 ++ (format0 12 2 ++ (format0 31 2 ++ ('-' ::
        (format0 23 2 ++ (format0 59 2 ++ (format0 59 2 ++ ('-' ::
        (format0 (999 * 1000 + 999) 6 ++ ".jpg".toList)))))))) :=
  timestamp_directory_agreement ⟨2024, 12, 31, 23, 59, 59, 999, 999⟩ (by decide) (by decide)

end AxisUpload
